import Mathlib

/-!
The command `kustomize edit set helmversion`.

A shallow embedding of `kustomize/commands/edit/set/sethelmversion.go` and the
properties of its two pieces: the argument validator (`validate`) and the file
updater (`setHelmVersion`), chained by the command's `RunE`.

Modelling conventions

* A Go `string` is a Lean `String`.  The only character the code looks for is
  `=`, a single byte that never occurs inside a multi-byte UTF-8 sequence, so
  cutting at the first `=` character is cutting at the first `=` byte.
* A Go `error` is a value carrying its message (`GoError`); `nil` is `none`.
* A Go `map[string]string` is an association list read through `GoMap.get`
  (the comma-ok lookup) and written through `GoMap.set` (the assignment
  `m[k] = v`); the `nil` map and the empty map are both `[]`.
* A Go slice is a `List`; the `nil` slice and the empty slice are both `[]`.
* A method with a pointer receiver returns the receiver's new value next to
  its result; the file system is passed explicitly.
* Package `kustfile` is a parameter (`KustFile`); `memKustFile` is a concrete
  store for runs on examples and `traced` records the calls of `Write`.
* Where the text of the file matters, the file system is that text and the
  store stays a parameter; what is known of it is the command's test.
-/

set_option autoImplicit false

namespace SetHelmVersion

/-! ## Go runtime pieces the command uses -/

/-- A Go `error` value, identified by its message. -/
structure GoError where
  msg : String
deriving DecidableEq, Repr

/-- Go `errors.New`. -/
def errorsNew (text : String) : GoError := ⟨text⟩

/-- Go `fmt.Errorf` for a format string with a single `%s` verb, given as the
text before the verb and the text after it: the string argument is inserted
verbatim. -/
def fmtErrorf (before after arg : String) : GoError := ⟨before ++ arg ++ after⟩

/-- Cut a character sequence at the first occurrence of `sep`
(`strings.Index` followed by the two slicings of `genSplit`):
`none` when `sep` does not occur. -/
def cutFirst (sep : Char) : List Char → Option (List Char × List Char)
  | [] => none
  | c :: cs =>
    if c = sep then some ([], cs)
    else match cutFirst sep cs with
      | none => none
      | some (a, b) => some (c :: a, b)

/-- Go `strings.SplitN` on character sequences, for a one-character separator
and a count `n ≥ 0`: at most `n` pieces, the last one being the unsplit
remainder; `n = 0` gives no piece at all. -/
def splitNChars (sep : Char) : Nat → List Char → List (List Char)
  | 0, _ => []
  | 1, s => [s]
  | n + 2, s =>
    match cutFirst sep s with
    | none => [s]
    | some (a, b) => a :: splitNChars sep (n + 1) b

/-- Go `strings.SplitN(s, sep, n)` for a one-character separator. -/
def SplitN (s : String) (sep : Char) (n : Nat) : List String :=
  (splitNChars sep n s.data).map String.mk

/-- A Go `map[string]string`. -/
abbrev GoMap := List (String × String)

/-- The comma-ok lookup `v, found := m[k]`: `some v` when found. -/
def GoMap.get : GoMap → String → Option String
  | [], _ => none
  | (k', v) :: m, k => if k' = k then some v else GoMap.get m k

/-- The assignment `m[k] = v`: the binding of `k` is replaced when there is
one and added otherwise. -/
def GoMap.set : GoMap → String → String → GoMap
  | [], k, v => [(k, v)]
  | (k', v') :: m, k, v => if k' = k then (k, v) :: m else (k', v') :: GoMap.set m k v

/-- The keys of a map. -/
def GoMap.keys (m : GoMap) : List String := m.map Prod.fst

/-! ## The kustomization document and its store -/

/-- Modelled from the spec: the chart reference type `types.HelmChart` is
declared outside the command's file; the spec gives it as
`{name, version, repo}`, identified by `name`, `repo` never touched. -/
structure HelmChart where
  Name : String
  Version : String
  Repo : String
deriving DecidableEq, Repr

/-- Modelled from the spec: the document type `types.Kustomization` is declared
outside the command's file; it holds the ordered `helmCharts` list and, in
`other`, every unrelated key. -/
structure Kustomization (κ : Type) where
  HelmCharts : List HelmChart
  other : κ
deriving DecidableEq, Repr

/-- The document store the command is given: package `kustfile` over the file
system `fSys`.  `σ` is the state of the file system, `μ` the handle returned
by `NewKustomizationFile`.  Opening and reading observe the file system;
reading may refresh the handle; writing returns the new file system and the
error, if any. -/
structure KustFile (σ μ κ : Type) where
  NewKustomizationFile : σ → Except GoError μ
  Read : μ → σ → Except GoError (μ × Kustomization κ)
  Write : μ → Kustomization κ → σ → σ × Option GoError

/-! ## The command -/

/-- The options of the command: `type setHelmVersionOptions struct`. -/
structure setHelmVersionOptions where
  chartMap : GoMap
deriving DecidableEq, Repr

/-- The loop of `validate` (`for _, arg := range args`), started on the
current map: it stops at the first argument it rejects, keeping what was
assigned so far. -/
def validateLoop : GoMap → List String → GoMap × Option GoError
  | chartMap, [] => (chartMap, none)
  | chartMap, arg :: rest =>
    match SplitN arg '=' 2 with
    | [chartName, version] =>
      if chartName = "" ∨ version = "" then
        (chartMap, some (fmtErrorf "invalid argument '"
          "', chartName and version must not be empty" arg))
      else
        validateLoop (GoMap.set chartMap chartName version) rest
    | _ =>
      (chartMap, some (fmtErrorf "invalid argument '"
        "', must be chartName=version" arg))

/-- The method `(o *setHelmVersionOptions) validate(args []string) error`:
the options after the call and the error returned. -/
def validate (o : setHelmVersionOptions) (args : List String) :
    setHelmVersionOptions × Option GoError :=
  if args.length = 0 then
    (o, some (errorsNew "no helm chart version specified"))
  else
    let r := validateLoop [] args
    ({ o with chartMap := r.1 }, r.2)

/-- One iteration of the loop of `setHelmVersion` at index `i`:
`hc` is the element at `i`; when its name is found in the map, the element at
`i` is replaced by `hc` with the new version. -/
def setHelmVersionStep (chartMap : GoMap) (charts : List HelmChart) (i : Nat) :
    List HelmChart :=
  match charts[i]? with
  | none => charts
  | some hc =>
    match GoMap.get chartMap hc.Name with
    | some newVersion => charts.set i { hc with Version := newVersion }
    | none => charts

/-- The loop of `setHelmVersion` (`for i, hc := range m.HelmCharts`): the
indices `0 .. len-1` of the slice as it is when the loop starts. -/
def setHelmVersionLoop (chartMap : GoMap) (charts : List HelmChart) : List HelmChart :=
  (List.range charts.length).foldl (setHelmVersionStep chartMap) charts

/-- The method `(o *setHelmVersionOptions) setHelmVersion(fSys) error`:
the file system after the call and the error returned. -/
def setHelmVersion {σ μ κ : Type} (kustfile : KustFile σ μ κ)
    (o : setHelmVersionOptions) (fSys : σ) : σ × Option GoError :=
  match kustfile.NewKustomizationFile fSys with
  | .error err => (fSys, some err)
  | .ok mf =>
    match kustfile.Read mf fSys with
    | .error err => (fSys, some err)
    | .ok (mf, m) =>
      kustfile.Write mf { m with HelmCharts := setHelmVersionLoop o.chartMap m.HelmCharts } fSys

/-- The `RunE` function of the command built by `newCmdSetHelmVersion(fSys)`:
`o` is the options value the closure captures. -/
def RunE {σ μ κ : Type} (kustfile : KustFile σ μ κ)
    (o : setHelmVersionOptions) (args : List String) (fSys : σ) :
    setHelmVersionOptions × σ × Option GoError :=
  match validate o args with
  | (o, some err) => (o, fSys, some err)
  | (o, none) => (o, setHelmVersion kustfile o fSys)

/-! ## An in-memory store, for concrete runs -/

/-- A store whose file system holds at most one kustomization document, as the
in-memory file system of the tests does: opening fails when there is none,
reading returns it, writing replaces it. -/
def memKustFile : KustFile (Option (Kustomization Unit)) Unit Unit where
  NewKustomizationFile := fun fSys =>
    match fSys with
    | none => .error ⟨"Missing kustomization file"⟩
    | some _ => .ok ()
  Read := fun mf fSys =>
    match fSys with
    | none => .error ⟨"Missing kustomization file"⟩
    | some m => .ok (mf, m)
  Write := fun _ m _ => (some m, none)

/-- A store together with the record of the calls of `Write`: the file system
is paired with the list of the documents `Write` was called with, oldest
first.  Opening and reading are those of the store and leave the record as it
is; every call of `Write` appends its document to the record. -/
def traced {σ μ κ : Type} (kustfile : KustFile σ μ κ) :
    KustFile (σ × List (Kustomization κ)) μ κ where
  NewKustomizationFile := fun fSys => kustfile.NewKustomizationFile fSys.1
  Read := fun mf fSys => kustfile.Read mf fSys.1
  Write := fun mf m fSys =>
    (((kustfile.Write mf m fSys.1).1, fSys.2 ++ [m]), (kustfile.Write mf m fSys.1).2)

/-! ## The test of the command, on the text of the file -/

/-- Go `strings.HasPrefix`, on character sequences. -/
def startsWith : List Char → List Char → Bool
  | _, [] => true
  | [], _ :: _ => false
  | c :: cs, d :: ds => c == d && startsWith cs ds

/-- Go `strings.Contains`, on character sequences: `substr` starts at some
position of `s`. -/
def containsChars : List Char → List Char → Bool
  | [], substr => startsWith [] substr
  | c :: cs, substr => startsWith (c :: cs) substr || containsChars cs substr

/-- Go `strings.Contains(s, substr)`. -/
def Contains (s substr : String) : Bool := containsChars s.data substr.data

/-- Go `strings.Join(elems, sep)`. -/
def Join : List String → String → String
  | [], _ => ""
  | [e], _ => e
  | e :: e' :: rest, sep => e ++ sep ++ Join (e' :: rest) sep

/-- The field `given.infileHelmCharts` of the test case "valid single argument
and one chart" of `TestSetHelmVersion`. -/
def infileHelmCharts : List String :=
  ["helmCharts:", "- name: mychart", "  version: old-version", "  repo: oci://myrepo"]

/-- The field `expected.fileOutput` of the test case "valid single argument
and one chart" of `TestSetHelmVersion`. -/
def fileOutput : List String :=
  ["helmCharts:", "- name: mychart", "  repo: oci://myrepo", "  version: 1.2.3"]

/-- The body of `TestSetHelmVersion` for a case that gives some `infile` lines
and expects no error and some file output, on a store whose file system is the
text of the kustomization file: the file is written with the lines of `infile`
joined by newlines, the command is run, and the case passes when no error
comes back and the text of the file then contains (`strings.Contains`) the
lines of `expected` joined by newlines. -/
def testCasePasses {μ κ : Type} (kustfile : KustFile String μ κ)
    (args infile expected : List String) : Bool :=
  let r := RunE kustfile ⟨[]⟩ args (Join infile "\n")
  r.2.2.isNone && Contains r.2.1 (Join expected "\n")

/-- What the loop of `setHelmVersion` makes of the element it visits: the
version is the mapped one when the name is a key of the map. -/
def withMappedVersion (chartMap : GoMap) (hc : HelmChart) : HelmChart :=
  match GoMap.get chartMap hc.Name with
  | some newVersion => { hc with Version := newVersion }
  | none => hc

/-! ## Strings and the split at the first `=` -/

theorem data_eqSign_append (n v : String) :
    (n ++ "=" ++ v).data = n.data ++ '=' :: v.data := by
  simp [String.data_append]

theorem cutFirst_of_not_mem (sep : Char) (s : List Char) (h : sep ∉ s) :
    cutFirst sep s = none := by
  induction s with
  | nil => rfl
  | cons c cs ih =>
    have hc : c ≠ sep := fun e => h (by simp [e])
    have hcs : sep ∉ cs := fun e => h (by simp [e])
    simp [cutFirst, hc, ih hcs]

theorem cutFirst_append (sep : Char) (a b : List Char) (h : sep ∉ a) :
    cutFirst sep (a ++ sep :: b) = some (a, b) := by
  induction a with
  | nil => simp [cutFirst]
  | cons c cs ih =>
    have hc : c ≠ sep := fun e => h (by simp [e])
    have hcs : sep ∉ cs := fun e => h (by simp [e])
    simp [cutFirst, hc, ih hcs]

theorem cutFirst_eq_some (sep : Char) (s a b : List Char)
    (h : cutFirst sep s = some (a, b)) : sep ∉ a ∧ s = a ++ sep :: b := by
  induction s generalizing a b with
  | nil => simp [cutFirst] at h
  | cons c cs ih =>
    by_cases hc : c = sep
    · simp [cutFirst, hc] at h
      obtain ⟨rfl, rfl⟩ := h
      simp [hc]
    · cases hr : cutFirst sep cs with
      | none => simp [cutFirst, hc, hr] at h
      | some p =>
        obtain ⟨a', b'⟩ := p
        simp [cutFirst, hc, hr] at h
        obtain ⟨rfl, rfl⟩ := h
        obtain ⟨h1, h2⟩ := ih a' b' hr
        refine ⟨?_, by simp [h2]⟩
        intro hm
        rcases List.mem_cons.1 hm with e | e
        · exact hc e.symm
        · exact h1 e

theorem cutFirst_eq_none (sep : Char) (s : List Char)
    (h : cutFirst sep s = none) : sep ∉ s := by
  induction s with
  | nil => simp
  | cons c cs ih =>
    by_cases hc : c = sep
    · simp [cutFirst, hc] at h
    · cases hr : cutFirst sep cs with
      | none =>
        intro hm
        rcases List.mem_cons.1 hm with e | e
        · exact hc e.symm
        · exact ih hr e
      | some p =>
        obtain ⟨a', b'⟩ := p
        simp [cutFirst, hc, hr] at h

theorem SplitN_two_of_not_mem (s : String) (h : '=' ∉ s.data) :
    SplitN s '=' 2 = [s] := by
  simp [SplitN, splitNChars, cutFirst_of_not_mem _ _ h]

theorem SplitN_two_of_eqSign (n v : String) (h : '=' ∉ n.data) :
    SplitN (n ++ "=" ++ v) '=' 2 = [n, v] := by
  simp [SplitN, splitNChars, data_eqSign_append, cutFirst_append _ _ _ h]

/-- Every string either holds no `=` or is, in exactly one way, a name without
`=`, followed by `=`, followed by a version. -/
theorem eqSign_cases (s : String) :
    '=' ∉ s.data ∨ ∃ n v : String, '=' ∉ n.data ∧ s = n ++ "=" ++ v := by
  cases hr : cutFirst '=' s.data with
  | none => exact Or.inl (cutFirst_eq_none _ _ hr)
  | some p =>
    obtain ⟨a, b⟩ := p
    obtain ⟨h1, h2⟩ := cutFirst_eq_some _ _ _ _ hr
    refine Or.inr ⟨⟨a⟩, ⟨b⟩, h1, ?_⟩
    apply String.ext
    rw [data_eqSign_append]
    exact h2

theorem eqSign_unique (n v n' v' : String) (h : '=' ∉ n.data) (h' : '=' ∉ n'.data)
    (e : n ++ "=" ++ v = n' ++ "=" ++ v') : n = n' ∧ v = v' := by
  have e1 := cutFirst_append '=' n.data v.data h
  have e2 := cutFirst_append '=' n'.data v'.data h'
  rw [← data_eqSign_append, e, data_eqSign_append, e2] at e1
  simp only [Option.some.injEq, Prod.mk.injEq] at e1
  exact ⟨(String.ext e1.1).symm, (String.ext e1.2).symm⟩

/-! ## Maps -/

theorem GoMap.get_set (m : GoMap) (k v k' : String) :
    GoMap.get (GoMap.set m k v) k' = if k = k' then some v else GoMap.get m k' := by
  induction m with
  | nil => simp [GoMap.set, GoMap.get]
  | cons p m ih =>
    obtain ⟨a, b⟩ := p
    by_cases hak : a = k
    · subst hak
      by_cases hk : a = k' <;> simp [GoMap.set, GoMap.get, hk]
    · by_cases hk : k = k'
      · subst hk
        simp [GoMap.set, GoMap.get, hak, ih]
      · simp [GoMap.set, GoMap.get, hak, ih, hk]

theorem GoMap.mem_keys_iff (m : GoMap) (k : String) :
    k ∈ GoMap.keys m ↔ ∃ v, GoMap.get m k = some v := by
  induction m with
  | nil => simp [GoMap.keys, GoMap.get]
  | cons p m ih =>
    obtain ⟨a, b⟩ := p
    have ih' : k ∈ List.map Prod.fst m ↔ ∃ v, GoMap.get m k = some v := ih
    by_cases hak : a = k
    · simp [GoMap.keys, GoMap.get, hak]
    · have hka : ¬ k = a := fun e => hak e.symm
      simp [GoMap.keys, GoMap.get, hak, hka, ih']

/-! ## The validator -/

theorem validateLoop_cons_no_eqSign (chartMap : GoMap) (a : String) (rest : List String)
    (h : '=' ∉ a.data) :
    validateLoop chartMap (a :: rest) =
      (chartMap, some ⟨"invalid argument '" ++ a ++ "', must be chartName=version"⟩) := by
  simp [validateLoop, SplitN_two_of_not_mem a h, fmtErrorf]

theorem validateLoop_cons_empty_part (chartMap : GoMap) (n v : String) (rest : List String)
    (h : '=' ∉ n.data) (he : n = "" ∨ v = "") :
    validateLoop chartMap ((n ++ "=" ++ v) :: rest) =
      (chartMap, some ⟨"invalid argument '" ++ (n ++ "=" ++ v) ++
        "', chartName and version must not be empty"⟩) := by
  simp only [validateLoop, SplitN_two_of_eqSign n v h, fmtErrorf]
  simp [he]

theorem validateLoop_cons_accept (chartMap : GoMap) (n v : String) (rest : List String)
    (h : '=' ∉ n.data) (hn : n ≠ "") (hv : v ≠ "") :
    validateLoop chartMap ((n ++ "=" ++ v) :: rest) =
      validateLoop (GoMap.set chartMap n v) rest := by
  simp only [validateLoop, SplitN_two_of_eqSign n v h]
  simp [hn, hv]

/-- An argument the loop steps over is `name=version` with neither part empty
and no `=` in the name. -/
theorem validateLoop_cons_ok (chartMap chartMap' : GoMap) (a : String) (rest : List String)
    (h : validateLoop chartMap (a :: rest) = (chartMap', none)) :
    ∃ n v : String, '=' ∉ n.data ∧ n ≠ "" ∧ v ≠ "" ∧ a = n ++ "=" ++ v := by
  rcases eqSign_cases a with h0 | ⟨n, v, hn, rfl⟩
  · rw [validateLoop_cons_no_eqSign _ _ _ h0] at h
    simp at h
  · by_cases he : n = "" ∨ v = ""
    · rw [validateLoop_cons_empty_part _ _ _ _ hn he] at h
      simp at h
    · exact ⟨n, v, hn, fun e => he (Or.inl e), fun e => he (Or.inr e), rfl⟩

/-- The loop steps over a run of well-formed arguments. -/
theorem validateLoop_append_accepted (pre rest : List String)
    (hpre : ∀ b ∈ pre, ∃ n v : String, '=' ∉ n.data ∧ n ≠ "" ∧ v ≠ "" ∧ b = n ++ "=" ++ v)
    (chartMap : GoMap) :
    ∃ chartMap', validateLoop chartMap (pre ++ rest) = validateLoop chartMap' rest := by
  induction pre generalizing chartMap with
  | nil => exact ⟨chartMap, rfl⟩
  | cons b bs ih =>
    obtain ⟨n, v, h, hn, hv, rfl⟩ := hpre b (by simp)
    obtain ⟨cm, hcm⟩ := ih (fun c hc => hpre c (by simp [hc])) (GoMap.set chartMap n v)
    exact ⟨cm, by rw [List.cons_append, validateLoop_cons_accept _ _ _ _ h hn hv, hcm]⟩

theorem validate_of_ne_nil (o : setHelmVersionOptions) (args : List String) (h : args ≠ []) :
    validate o args = (⟨(validateLoop [] args).1⟩, (validateLoop [] args).2) := by
  cases args with
  | nil => exact absurd rfl h
  | cons a rest => simp [validate]

/-- What the loop of `validate` leaves in the map when it accepts every
argument: `k` is bound to `v` exactly when the last argument named `k` is
`k=v`, or no argument is named `k` and the map it started on bound `k` to `v`. -/
theorem validateLoop_get (args : List String) (chartMap chartMap' : GoMap)
    (h : validateLoop chartMap args = (chartMap', none)) (k v : String) :
    GoMap.get chartMap' k = some v ↔
      (∃ pre post, args = pre ++ (k ++ "=" ++ v) :: post ∧ '=' ∉ k.data ∧
        ∀ b ∈ post, ∀ v' : String, b ≠ k ++ "=" ++ v') ∨
      (GoMap.get chartMap k = some v ∧
        ∀ b ∈ args, ∀ v' : String, '=' ∉ k.data → b ≠ k ++ "=" ++ v') := by
  induction args generalizing chartMap with
  | nil =>
    simp only [validateLoop, Prod.mk.injEq, and_true] at h
    subst h
    simp
  | cons a rest ih =>
    obtain ⟨n, w, hn, hn0, hw0, rfl⟩ := validateLoop_cons_ok _ _ _ _ h
    rw [validateLoop_cons_accept _ _ _ _ hn hn0 hw0] at h
    rw [ih _ h, GoMap.get_set]
    constructor
    · rintro (⟨pre, post, e, hk, hlast⟩ | ⟨hget, hrest⟩)
      · exact Or.inl ⟨(n ++ "=" ++ w) :: pre, post, by simp [e], hk, hlast⟩
      · by_cases hnk : n = k
        · subst hnk
          simp only [if_true, Option.some.injEq] at hget
          subst hget
          exact Or.inl ⟨[], rest, rfl, hn, fun b hb v' => hrest b hb v' hn⟩
        · simp only [hnk, if_false] at hget
          refine Or.inr ⟨hget, fun b hb v' hk => ?_⟩
          rcases List.mem_cons.1 hb with e | hb'
          · subst e
            exact fun e' => hnk (eqSign_unique _ _ _ _ hn hk e').1
          · exact hrest b hb' v' hk
    · rintro (⟨pre, post, e, hk, hlast⟩ | ⟨hget, hall⟩)
      · cases pre with
        | nil =>
          simp only [List.nil_append, List.cons.injEq] at e
          obtain ⟨e1, e2⟩ := e
          obtain ⟨rfl, rfl⟩ := eqSign_unique _ _ _ _ hn hk e1
          subst e2
          exact Or.inr ⟨by simp, fun b hb v' _ => hlast b hb v'⟩
        | cons c pre' =>
          simp only [List.cons_append, List.cons.injEq] at e
          exact Or.inl ⟨pre', post, e.2, hk, hlast⟩
      · have hnk : n ≠ k := by
          rintro rfl
          exact hall _ (List.mem_cons_self _ _) w hn rfl
        exact Or.inr ⟨by simp [hnk, hget],
          fun b hb v' hk => hall b (List.mem_cons_of_mem _ hb) v' hk⟩

/-- The keys the loop of `validate` leaves in the map when it accepts every
argument: the names of the arguments and the keys it started on. -/
theorem validateLoop_keys (args : List String) (chartMap chartMap' : GoMap)
    (h : validateLoop chartMap args = (chartMap', none)) (k : String) :
    k ∈ GoMap.keys chartMap' ↔
      (∃ v : String, '=' ∉ k.data ∧ (k ++ "=" ++ v) ∈ args) ∨ k ∈ GoMap.keys chartMap := by
  induction args generalizing chartMap with
  | nil =>
    simp only [validateLoop, Prod.mk.injEq, and_true] at h
    subst h
    simp
  | cons a rest ih =>
    obtain ⟨n, w, hn, hn0, hw0, rfl⟩ := validateLoop_cons_ok _ _ _ _ h
    rw [validateLoop_cons_accept _ _ _ _ hn hn0 hw0] at h
    rw [ih _ h, GoMap.mem_keys_iff, GoMap.mem_keys_iff]
    simp only [GoMap.get_set]
    constructor
    · rintro (⟨v, hk, hmem⟩ | ⟨v, hget⟩)
      · exact Or.inl ⟨v, hk, List.mem_cons_of_mem _ hmem⟩
      · by_cases hnk : n = k
        · subst hnk
          exact Or.inl ⟨w, hn, List.mem_cons_self _ _⟩
        · simp only [hnk, if_false] at hget
          exact Or.inr ⟨v, hget⟩
    · rintro (⟨v, hk, hmem⟩ | ⟨v, hget⟩)
      · rcases List.mem_cons.1 hmem with e | hmem'
        · obtain ⟨rfl, rfl⟩ := eqSign_unique _ _ _ _ hk hn e
          exact Or.inr ⟨v, by simp⟩
        · exact Or.inl ⟨v, hk, hmem'⟩
      · by_cases hnk : n = k
        · exact Or.inr ⟨w, by simp [hnk]⟩
        · exact Or.inr ⟨v, by simp [hnk, hget]⟩

theorem validate_ok_ne_nil (o o' : setHelmVersionOptions) (args : List String)
    (h : validate o args = (o', none)) :
    args ≠ [] ∧ validateLoop [] args = (o'.chartMap, none) := by
  cases args with
  | nil => simp [validate] at h
  | cons a rest =>
    rw [validate_of_ne_nil o _ (by simp)] at h
    simp only [Prod.mk.injEq] at h
    obtain ⟨h1, h2⟩ := h
    subst h1
    exact ⟨by simp, Prod.ext rfl h2⟩

/-- When the loop of `validate` accepts a list, every argument in it is well
formed. -/
theorem validateLoop_ok_all (args : List String) (chartMap chartMap' : GoMap)
    (h : validateLoop chartMap args = (chartMap', none)) :
    ∀ b ∈ args, ∃ n v : String, '=' ∉ n.data ∧ n ≠ "" ∧ v ≠ "" ∧ b = n ++ "=" ++ v := by
  induction args generalizing chartMap with
  | nil => simp
  | cons a rest ih =>
    obtain ⟨n, w, hn, hn0, hw0, rfl⟩ := validateLoop_cons_ok _ _ _ _ h
    rw [validateLoop_cons_accept _ _ _ _ hn hn0 hw0] at h
    intro b hb
    rcases List.mem_cons.1 hb with e | hb'
    · exact ⟨n, w, hn, hn0, hw0, e⟩
    · exact ih _ h b hb'

/-- C3: `validate` on an argument list with zero elements fails with the
message "no helm chart version specified" (leaving the options as they were),
and the command's `RunE` returns that same error. -/
theorem validate_no_args {σ μ κ : Type} (kustfile : KustFile σ μ κ)
    (o : setHelmVersionOptions) (fSys : σ) :
    validate o [] = (o, some ⟨"no helm chart version specified"⟩) ∧
    RunE kustfile o [] fSys = (o, fSys, some ⟨"no helm chart version specified"⟩) := by
  constructor <;> rfl

/-- C4: when every argument before `a` is well formed (`name=version`, both
parts non-empty, the name without `=`) and `a` holds no `=`, `validate` fails
with the message `invalid argument 'a', must be chartName=version`, naming `a`
verbatim. -/
theorem validate_no_eqSign (o : setHelmVersionOptions) (pre post : List String) (a : String)
    (hpre : ∀ b ∈ pre, ∃ n v : String, '=' ∉ n.data ∧ n ≠ "" ∧ v ≠ "" ∧ b = n ++ "=" ++ v)
    (ha : '=' ∉ a.data) :
    (validate o (pre ++ a :: post)).2 =
      some ⟨"invalid argument '" ++ a ++ "', must be chartName=version"⟩ := by
  obtain ⟨cm, hcm⟩ := validateLoop_append_accepted pre (a :: post) hpre []
  rw [validate_of_ne_nil o _ (by simp), hcm, validateLoop_cons_no_eqSign _ _ _ ha]

/-- Witness of C4: the test case "invalid format no equals". -/
theorem validate_no_eqSign_witness :
    (validate ⟨[]⟩ ["mychart1.2.3"]).2 =
      some ⟨"invalid argument 'mychart1.2.3', must be chartName=version"⟩ :=
  validate_no_eqSign ⟨[]⟩ [] [] "mychart1.2.3" (by simp) (by decide)

/-- C5: when every argument before `a` is well formed and `a` is
`name=version` cut at its first `=` with an empty name or an empty version,
`validate` fails with the message
`invalid argument 'a', chartName and version must not be empty`. -/
theorem validate_empty_part (o : setHelmVersionOptions) (pre post : List String)
    (a n v : String)
    (hpre : ∀ b ∈ pre, ∃ n v : String, '=' ∉ n.data ∧ n ≠ "" ∧ v ≠ "" ∧ b = n ++ "=" ++ v)
    (ha : a = n ++ "=" ++ v) (hn : '=' ∉ n.data) (he : n = "" ∨ v = "") :
    (validate o (pre ++ a :: post)).2 =
      some ⟨"invalid argument '" ++ a ++ "', chartName and version must not be empty"⟩ := by
  subst ha
  obtain ⟨cm, hcm⟩ := validateLoop_append_accepted pre ((n ++ "=" ++ v) :: post) hpre []
  rw [validate_of_ne_nil o _ (by simp), hcm, validateLoop_cons_empty_part _ _ _ _ hn he]

/-- Witness of C5: the test cases "empty chart name" and "empty version". -/
theorem validate_empty_part_witness :
    (validate ⟨[]⟩ ["=1.2.3"]).2 =
      some ⟨"invalid argument '=1.2.3', chartName and version must not be empty"⟩ ∧
    (validate ⟨[]⟩ ["mychart="]).2 =
      some ⟨"invalid argument 'mychart=', chartName and version must not be empty"⟩ :=
  ⟨validate_empty_part ⟨[]⟩ [] [] "=1.2.3" "" "1.2.3" (by simp) (by decide) (by decide)
      (Or.inl rfl),
   validate_empty_part ⟨[]⟩ [] [] "mychart=" "mychart" "" (by simp) (by decide) (by decide)
      (Or.inr rfl)⟩

/-- C6: when `validate` succeeds, whatever the options held before, the keys
of the resulting map are exactly the name parts of the arguments (`k` is a key
iff some argument is `k=v` with no `=` in `k`), and `k` is bound to `v` iff the
last argument named `k` is `k=v`: later duplicates overwrite earlier ones and
nothing held before the call survives. -/
theorem validate_chartMap (o o' : setHelmVersionOptions) (args : List String)
    (h : validate o args = (o', none)) :
    (∀ k : String, k ∈ GoMap.keys o'.chartMap ↔
      ∃ v : String, '=' ∉ k.data ∧ (k ++ "=" ++ v) ∈ args) ∧
    (∀ k v : String, GoMap.get o'.chartMap k = some v ↔
      ∃ pre post, args = pre ++ (k ++ "=" ++ v) :: post ∧ '=' ∉ k.data ∧
        ∀ b ∈ post, ∀ v' : String, b ≠ k ++ "=" ++ v') := by
  obtain ⟨_, hl⟩ := validate_ok_ne_nil o o' args h
  constructor
  · intro k
    rw [validateLoop_keys args [] _ hl k]
    simp [GoMap.keys]
  · intro k v
    rw [validateLoop_get args [] _ hl k v]
    simp [GoMap.get]

/-- Witness of C6: on options that held `x ↦ y`, the arguments
`a=1 b=2 a=3` give the map `a ↦ 3, b ↦ 2`. -/
theorem validate_chartMap_witness :
    validate ⟨[("x", "y")]⟩ ["a=1", "b=2", "a=3"] = (⟨[("a", "3"), ("b", "2")]⟩, none) ∧
    ("x" ∈ GoMap.keys [("a", "3"), ("b", "2")] ↔
      ∃ v : String, '=' ∉ "x".data ∧ ("x" ++ "=" ++ v) ∈ ["a=1", "b=2", "a=3"]) ∧
    (GoMap.get [("a", "3"), ("b", "2")] "a" = some "1" ↔
      ∃ pre post, ["a=1", "b=2", "a=3"] = pre ++ ("a" ++ "=" ++ "1") :: post ∧ '=' ∉ "a".data ∧
        ∀ b ∈ post, ∀ v' : String, b ≠ "a" ++ "=" ++ v') :=
  ⟨by decide,
   (validate_chartMap ⟨[("x", "y")]⟩ ⟨[("a", "3"), ("b", "2")]⟩ ["a=1", "b=2", "a=3"]
      (by decide)).1 "x",
   (validate_chartMap ⟨[("x", "y")]⟩ ⟨[("a", "3"), ("b", "2")]⟩ ["a=1", "b=2", "a=3"]
      (by decide)).2 "a" "1"⟩

/-- C7: every argument `a` of a list that `validate` accepts is cut at its
first `=` only: the pair `(name, version)` that `SplitN` yields, which is what
the map holds for `name` right after `a` is processed, has no `=` in `name`
and satisfies `name ++ "=" ++ version = a` (so any further `=` of `a` stays in
`version`). -/
theorem validate_split_first_eqSign (o o' : setHelmVersionOptions)
    (pre post : List String) (a : String)
    (h : validate o (pre ++ a :: post) = (o', none)) :
    ∃ name version : String,
      SplitN a '=' 2 = [name, version] ∧ '=' ∉ name.data ∧ name ++ "=" ++ version = a ∧
      (validate o (pre ++ [a])).2 = none ∧
      GoMap.get (validate o (pre ++ [a])).1.chartMap name = some version := by
  obtain ⟨_, hl⟩ := validate_ok_ne_nil o o' _ h
  have hall := validateLoop_ok_all _ _ _ hl
  obtain ⟨n, v, hn, hn0, hv0, rfl⟩ := hall a (by simp)
  obtain ⟨cm, hcm⟩ := validateLoop_append_accepted pre [n ++ "=" ++ v]
    (fun b hb => hall b (by simp [hb])) []
  refine ⟨n, v, SplitN_two_of_eqSign n v hn, hn, rfl, ?_, ?_⟩
  · rw [validate_of_ne_nil o _ (by simp), hcm, validateLoop_cons_accept _ _ _ _ hn hn0 hv0]
    rfl
  · rw [validate_of_ne_nil o _ (by simp), hcm, validateLoop_cons_accept _ _ _ _ hn hn0 hv0]
    simp [validateLoop, GoMap.get_set]

/-- Witness of C7: `a=b=c` is accepted and recorded as name `a`, version
`b=c`. -/
theorem validate_split_first_eqSign_witness :
    validate ⟨[]⟩ ["a=b=c"] = (⟨[("a", "b=c")]⟩, none) ∧
    ∃ name version : String,
      SplitN "a=b=c" '=' 2 = [name, version] ∧ '=' ∉ name.data ∧
      name ++ "=" ++ version = "a=b=c" ∧
      (validate ⟨[]⟩ ([] ++ ["a=b=c"])).2 = none ∧
      GoMap.get (validate ⟨[]⟩ ([] ++ ["a=b=c"])).1.chartMap name = some version :=
  ⟨by decide, validate_split_first_eqSign ⟨[]⟩ ⟨[("a", "b=c")]⟩ [] [] "a=b=c" (by decide)⟩

/-! ## The file updater -/

theorem setHelmVersionStep_at (chartMap : GoMap) (l r : List HelmChart) (hc : HelmChart)
    (n : Nat) (hn : l.length = n) :
    setHelmVersionStep chartMap (l ++ hc :: r) n =
      l ++ withMappedVersion chartMap hc :: r := by
  subst hn
  have h : (l ++ hc :: r)[l.length]? = some hc := by
    rw [List.getElem?_append_right (Nat.le_refl _)]
    simp
  unfold setHelmVersionStep withMappedVersion
  rw [h]
  cases hg : GoMap.get chartMap hc.Name <;> simp [hg]

theorem setHelmVersionLoop_upto (chartMap : GoMap) (charts : List HelmChart) (n : Nat)
    (hn : n ≤ charts.length) :
    (List.range n).foldl (setHelmVersionStep chartMap) charts =
      (charts.take n).map (withMappedVersion chartMap) ++ charts.drop n := by
  induction n with
  | zero => simp
  | succ n ih =>
    have hlt : n < charts.length := hn
    rw [List.range_succ, List.foldl_append, ih (Nat.le_of_lt hlt)]
    simp only [List.foldl_cons, List.foldl_nil]
    have hlen : ((charts.take n).map (withMappedVersion chartMap)).length = n := by
      simp [Nat.le_of_lt hlt]
    rw [List.drop_eq_getElem_cons hlt, setHelmVersionStep_at _ _ _ _ _ hlen, List.take_succ,
      List.getElem?_eq_getElem hlt]
    simp only [Option.toList, List.map_append, List.map_cons, List.map_nil, List.append_assoc,
      List.singleton_append]

/-- The loop of `setHelmVersion` gives every element its mapped version,
position by position. -/
theorem setHelmVersionLoop_eq_map (chartMap : GoMap) (charts : List HelmChart) :
    setHelmVersionLoop chartMap charts = charts.map (withMappedVersion chartMap) := by
  unfold setHelmVersionLoop
  rw [setHelmVersionLoop_upto chartMap charts charts.length (Nat.le_refl _)]
  simp

theorem setHelmVersion_of_read {σ μ κ : Type} (kustfile : KustFile σ μ κ)
    (o : setHelmVersionOptions) (fSys : σ) (mf mf' : μ) (m : Kustomization κ)
    (hopen : kustfile.NewKustomizationFile fSys = .ok mf)
    (hread : kustfile.Read mf fSys = .ok (mf', m)) :
    setHelmVersion kustfile o fSys =
      kustfile.Write mf' { m with HelmCharts := setHelmVersionLoop o.chartMap m.HelmCharts }
        fSys := by
  simp [setHelmVersion, hopen, hread]

theorem withMappedVersion_of_get (chartMap : GoMap) (hc : HelmChart) (v : String)
    (h : GoMap.get chartMap hc.Name = some v) :
    withMappedVersion chartMap hc = { Name := hc.Name, Version := v, Repo := hc.Repo } := by
  simp [withMappedVersion, h]

theorem withMappedVersion_of_get_none (chartMap : GoMap) (hc : HelmChart)
    (h : GoMap.get chartMap hc.Name = none) : withMappedVersion chartMap hc = hc := by
  simp [withMappedVersion, h]

theorem withMappedVersion_Name (chartMap : GoMap) (hc : HelmChart) :
    (withMappedVersion chartMap hc).Name = hc.Name := by
  unfold withMappedVersion
  cases GoMap.get chartMap hc.Name <;> rfl

/-- The loop changes nothing when no entry's name is a key of the map. -/
theorem setHelmVersionLoop_of_no_key (chartMap : GoMap) (charts : List HelmChart)
    (h : ∀ hc ∈ charts, hc.Name ∉ GoMap.keys chartMap) :
    setHelmVersionLoop chartMap charts = charts := by
  rw [setHelmVersionLoop_eq_map]
  conv_rhs => rw [← List.map_id charts]
  apply List.map_congr_left
  intro hc hmem
  apply withMappedVersion_of_get_none
  cases hg : GoMap.get chartMap hc.Name with
  | none => rfl
  | some v => exact absurd ((GoMap.mem_keys_iff _ _).2 ⟨v, hg⟩) (h hc hmem)

/-- C1: when the document is read, `setHelmVersion` writes it with the
`helmCharts` list the loop produces, and in that list every entry whose name is
a key of the map has, at the same position, the mapped value as its version
and the name and repo it had before. -/
theorem setHelmVersion_sets_version {σ μ κ : Type} (kustfile : KustFile σ μ κ)
    (o : setHelmVersionOptions) (fSys : σ) (mf mf' : μ) (m : Kustomization κ)
    (hopen : kustfile.NewKustomizationFile fSys = .ok mf)
    (hread : kustfile.Read mf fSys = .ok (mf', m)) :
    setHelmVersion kustfile o fSys =
      kustfile.Write mf' { m with HelmCharts := setHelmVersionLoop o.chartMap m.HelmCharts }
        fSys ∧
    ∀ (i : Nat) (hc : HelmChart) (v : String),
      m.HelmCharts[i]? = some hc → GoMap.get o.chartMap hc.Name = some v →
      (setHelmVersionLoop o.chartMap m.HelmCharts)[i]? =
        some { Name := hc.Name, Version := v, Repo := hc.Repo } := by
  refine ⟨setHelmVersion_of_read kustfile o fSys mf mf' m hopen hread, ?_⟩
  intro i hc v hi hv
  rw [setHelmVersionLoop_eq_map, List.getElem?_map, hi]
  simp [withMappedVersion_of_get _ _ _ hv]

/-- Witness of C1: the test case "valid single argument and one chart". -/
theorem setHelmVersion_sets_version_witness :
    RunE memKustFile ⟨[]⟩ ["mychart=1.2.3"]
        (some ⟨[⟨"mychart", "old-version", "oci://myrepo"⟩], ()⟩) =
      (⟨[("mychart", "1.2.3")]⟩, some ⟨[⟨"mychart", "1.2.3", "oci://myrepo"⟩], ()⟩, none) ∧
    (setHelmVersionLoop [("mychart", "1.2.3")]
        [⟨"mychart", "old-version", "oci://myrepo"⟩])[0]? =
      some ⟨"mychart", "1.2.3", "oci://myrepo"⟩ :=
  ⟨by decide,
   (setHelmVersion_sets_version memKustFile ⟨[("mychart", "1.2.3")]⟩
      (some ⟨[⟨"mychart", "old-version", "oci://myrepo"⟩], ()⟩) () ()
      ⟨[⟨"mychart", "old-version", "oci://myrepo"⟩], ()⟩ rfl rfl).2 0
      ⟨"mychart", "old-version", "oci://myrepo"⟩ "1.2.3" rfl (by decide)⟩

/-- C2: when the document is read, the `helmCharts` list `setHelmVersion`
writes has the length of the list read and the same names in the same order,
and every entry whose name is not a key of the map is, at the same position,
the entry read (all fields identical). -/
theorem setHelmVersion_frame {σ μ κ : Type} (kustfile : KustFile σ μ κ)
    (o : setHelmVersionOptions) (fSys : σ) (mf mf' : μ) (m : Kustomization κ)
    (hopen : kustfile.NewKustomizationFile fSys = .ok mf)
    (hread : kustfile.Read mf fSys = .ok (mf', m)) :
    setHelmVersion kustfile o fSys =
      kustfile.Write mf' { m with HelmCharts := setHelmVersionLoop o.chartMap m.HelmCharts }
        fSys ∧
    (setHelmVersionLoop o.chartMap m.HelmCharts).length = m.HelmCharts.length ∧
    (setHelmVersionLoop o.chartMap m.HelmCharts).map HelmChart.Name =
      m.HelmCharts.map HelmChart.Name ∧
    ∀ (i : Nat) (hc : HelmChart),
      m.HelmCharts[i]? = some hc → hc.Name ∉ GoMap.keys o.chartMap →
      (setHelmVersionLoop o.chartMap m.HelmCharts)[i]? = some hc := by
  refine ⟨setHelmVersion_of_read kustfile o fSys mf mf' m hopen hread, ?_, ?_, ?_⟩
  · simp [setHelmVersionLoop_eq_map]
  · rw [setHelmVersionLoop_eq_map, List.map_map]
    apply List.map_congr_left
    intro hc _
    exact withMappedVersion_Name _ hc
  · intro i hc hi hk
    have hg : GoMap.get o.chartMap hc.Name = none := by
      cases hg : GoMap.get o.chartMap hc.Name with
      | none => rfl
      | some v => exact absurd ((GoMap.mem_keys_iff _ _).2 ⟨v, hg⟩) hk
    rw [setHelmVersionLoop_eq_map, List.getElem?_map, hi]
    simp [withMappedVersion_of_get_none _ _ hg]

/-- Witness of C2: the test case "valid multiple arguments and multiple
distinct charts": `chartC` stays at the third position with version
`unchangedC`. -/
theorem setHelmVersion_frame_witness :
    RunE memKustFile ⟨[]⟩ ["chartA=2.0.0", "chartB=3.0.0"]
        (some ⟨[⟨"chartA", "oldA", ""⟩, ⟨"chartB", "oldB", ""⟩,
          ⟨"chartC", "unchangedC", ""⟩], ()⟩) =
      (⟨[("chartA", "2.0.0"), ("chartB", "3.0.0")]⟩,
        some ⟨[⟨"chartA", "2.0.0", ""⟩, ⟨"chartB", "3.0.0", ""⟩,
          ⟨"chartC", "unchangedC", ""⟩], ()⟩, none) ∧
    (setHelmVersionLoop [("chartA", "2.0.0"), ("chartB", "3.0.0")]
        [⟨"chartA", "oldA", ""⟩, ⟨"chartB", "oldB", ""⟩, ⟨"chartC", "unchangedC", ""⟩])[2]? =
      some ⟨"chartC", "unchangedC", ""⟩ :=
  ⟨by decide,
   (setHelmVersion_frame memKustFile ⟨[("chartA", "2.0.0"), ("chartB", "3.0.0")]⟩
      (some ⟨[⟨"chartA", "oldA", ""⟩, ⟨"chartB", "oldB", ""⟩,
        ⟨"chartC", "unchangedC", ""⟩], ()⟩) () ()
      ⟨[⟨"chartA", "oldA", ""⟩, ⟨"chartB", "oldB", ""⟩, ⟨"chartC", "unchangedC", ""⟩], ()⟩
      rfl rfl).2.2.2 2 ⟨"chartC", "unchangedC", ""⟩ rfl (by decide)⟩

/-- C8: when the document is read and the map binds `n` to `v`, every entry
named `n` in the list read has version `v` at its position in the list
written, and every entry named `n` in the list written has version `v`:
entries sharing the name all get the same version. -/
theorem setHelmVersion_same_name {σ μ κ : Type} (kustfile : KustFile σ μ κ)
    (o : setHelmVersionOptions) (fSys : σ) (mf mf' : μ) (m : Kustomization κ)
    (n v : String)
    (hopen : kustfile.NewKustomizationFile fSys = .ok mf)
    (hread : kustfile.Read mf fSys = .ok (mf', m))
    (hv : GoMap.get o.chartMap n = some v) :
    setHelmVersion kustfile o fSys =
      kustfile.Write mf' { m with HelmCharts := setHelmVersionLoop o.chartMap m.HelmCharts }
        fSys ∧
    (∀ (i : Nat) (hc : HelmChart), m.HelmCharts[i]? = some hc → hc.Name = n →
      (setHelmVersionLoop o.chartMap m.HelmCharts)[i]? =
        some { Name := n, Version := v, Repo := hc.Repo }) ∧
    ∀ hc ∈ setHelmVersionLoop o.chartMap m.HelmCharts, hc.Name = n → hc.Version = v := by
  refine ⟨setHelmVersion_of_read kustfile o fSys mf mf' m hopen hread, ?_, ?_⟩
  · intro i hc hi hn
    subst hn
    rw [setHelmVersionLoop_eq_map, List.getElem?_map, hi]
    simp [withMappedVersion_of_get _ _ _ hv]
  · intro hc hmem hn
    rw [setHelmVersionLoop_eq_map] at hmem
    obtain ⟨hc0, _, rfl⟩ := List.mem_map.1 hmem
    rw [withMappedVersion_Name] at hn
    subst hn
    rw [withMappedVersion_of_get _ _ _ hv]

/-- Witness of C8: the test case "multiple charts with same name updated". -/
theorem setHelmVersion_same_name_witness :
    RunE memKustFile ⟨[]⟩ ["redis=10.0.0"]
        (some ⟨[⟨"redis", "old-version", ""⟩, ⟨"redis", "another-old-version", ""⟩,
          ⟨"filing", "stay-the-same", ""⟩], ()⟩) =
      (⟨[("redis", "10.0.0")]⟩,
        some ⟨[⟨"redis", "10.0.0", ""⟩, ⟨"redis", "10.0.0", ""⟩,
          ⟨"filing", "stay-the-same", ""⟩], ()⟩, none) ∧
    ∀ hc ∈ setHelmVersionLoop [("redis", "10.0.0")]
        [⟨"redis", "old-version", ""⟩, ⟨"redis", "another-old-version", ""⟩,
          ⟨"filing", "stay-the-same", ""⟩],
      hc.Name = "redis" → hc.Version = "10.0.0" :=
  ⟨by decide,
   (setHelmVersion_same_name memKustFile ⟨[("redis", "10.0.0")]⟩
      (some ⟨[⟨"redis", "old-version", ""⟩, ⟨"redis", "another-old-version", ""⟩,
        ⟨"filing", "stay-the-same", ""⟩], ()⟩) () ()
      ⟨[⟨"redis", "old-version", ""⟩, ⟨"redis", "another-old-version", ""⟩,
        ⟨"filing", "stay-the-same", ""⟩], ()⟩ "redis" "10.0.0" rfl rfl (by decide)).2.2⟩

theorem RunE_of_validate_ok {σ μ κ : Type} (kustfile : KustFile σ μ κ)
    (o o' : setHelmVersionOptions) (args : List String) (fSys : σ)
    (h : validate o args = (o', none)) :
    RunE kustfile o args fSys = (o', setHelmVersion kustfile o' fSys) := by
  simp [RunE, h]

/-- C9: when `validate` accepts the arguments, the document is read, and no
key of the resulting map is the name of an entry of its `helmCharts` list, the
command writes the document exactly as read and returns what that write
returns: no error when the write succeeds. -/
theorem RunE_no_matching_chart {σ μ κ : Type} (kustfile : KustFile σ μ κ)
    (o o' : setHelmVersionOptions) (args : List String) (fSys : σ) (mf mf' : μ)
    (m : Kustomization κ)
    (hvalid : validate o args = (o', none))
    (hopen : kustfile.NewKustomizationFile fSys = .ok mf)
    (hread : kustfile.Read mf fSys = .ok (mf', m))
    (hno : ∀ hc ∈ m.HelmCharts, hc.Name ∉ GoMap.keys o'.chartMap) :
    RunE kustfile o args fSys = (o', kustfile.Write mf' m fSys) ∧
    ((kustfile.Write mf' m fSys).2 = none → (RunE kustfile o args fSys).2.2 = none) := by
  have h : RunE kustfile o args fSys = (o', kustfile.Write mf' m fSys) := by
    rw [RunE_of_validate_ok kustfile o o' args fSys hvalid,
      setHelmVersion_of_read kustfile o' fSys mf mf' m hopen hread,
      setHelmVersionLoop_of_no_key _ _ hno]
  exact ⟨h, fun hw => by rw [h]; exact hw⟩

/-- Witness of C9: the test case "chart does not exist". -/
theorem RunE_no_matching_chart_witness :
    RunE memKustFile ⟨[]⟩ ["nonexistent=9.9.9"] (some ⟨[⟨"chartA", "oldA", ""⟩], ()⟩) =
      (⟨[("nonexistent", "9.9.9")]⟩, some ⟨[⟨"chartA", "oldA", ""⟩], ()⟩, none) :=
  (RunE_no_matching_chart memKustFile ⟨[]⟩ ⟨[("nonexistent", "9.9.9")]⟩
    ["nonexistent=9.9.9"] (some ⟨[⟨"chartA", "oldA", ""⟩], ()⟩) () ()
    ⟨[⟨"chartA", "oldA", ""⟩], ()⟩ (by decide) rfl rfl (by decide)).1

/-- C10: when the document is read and has no `helmCharts` entry, the list
`setHelmVersion` writes has no entry either, the document written is the
document read, and `setHelmVersion` returns what that write returns: no error
when the write succeeds. -/
theorem setHelmVersion_no_helmCharts {σ μ κ : Type} (kustfile : KustFile σ μ κ)
    (o : setHelmVersionOptions) (fSys : σ) (mf mf' : μ) (m : Kustomization κ)
    (hopen : kustfile.NewKustomizationFile fSys = .ok mf)
    (hread : kustfile.Read mf fSys = .ok (mf', m))
    (hnil : m.HelmCharts = []) :
    setHelmVersionLoop o.chartMap m.HelmCharts = [] ∧
    setHelmVersion kustfile o fSys = kustfile.Write mf' m fSys ∧
    ((kustfile.Write mf' m fSys).2 = none → (setHelmVersion kustfile o fSys).2 = none) := by
  have hl : setHelmVersionLoop o.chartMap m.HelmCharts = [] := by
    rw [hnil]
    rfl
  have h : setHelmVersion kustfile o fSys = kustfile.Write mf' m fSys := by
    rw [setHelmVersion_of_read kustfile o fSys mf mf' m hopen hread, hl, ← hnil]
  exact ⟨hl, h, fun hw => by rw [h]; exact hw⟩

/-- Witness of C10: the test case "no helmCharts field in file". -/
theorem setHelmVersion_no_helmCharts_witness :
    RunE memKustFile ⟨[]⟩ ["mychart=2.2.2"] (some ⟨[], ()⟩) =
      (⟨[("mychart", "2.2.2")]⟩, some ⟨[], ()⟩, none) ∧
    setHelmVersion memKustFile ⟨[("mychart", "2.2.2")]⟩ (some ⟨[], ()⟩) =
      memKustFile.Write () ⟨[], ()⟩ (some ⟨[], ()⟩) :=
  ⟨by decide,
   (setHelmVersion_no_helmCharts memKustFile ⟨[("mychart", "2.2.2")]⟩ (some ⟨[], ()⟩) () ()
      ⟨[], ()⟩ rfl rfl rfl).2.1⟩

/-! ## The validator: acceptance and the error reported -/

/-- The loop of `validate` accepts a list of well-formed arguments. -/
theorem validateLoop_accepts (args : List String)
    (h : ∀ b ∈ args, ∃ n v : String, '=' ∉ n.data ∧ n ≠ "" ∧ v ≠ "" ∧ b = n ++ "=" ++ v)
    (chartMap : GoMap) : (validateLoop chartMap args).2 = none := by
  obtain ⟨cm, hcm⟩ := validateLoop_append_accepted args [] h chartMap
  rw [List.append_nil] at hcm
  rw [hcm]
  rfl

/-- An argument that is not well formed is rejected with an error that depends
on the argument alone. -/
theorem validateLoop_cons_rejected (a : String)
    (ha : ¬ ∃ n v : String, '=' ∉ n.data ∧ n ≠ "" ∧ v ≠ "" ∧ a = n ++ "=" ++ v) :
    ∃ e : GoError, ∀ (chartMap : GoMap) (rest : List String),
      validateLoop chartMap (a :: rest) = (chartMap, some e) := by
  rcases eqSign_cases a with h0 | ⟨n, v, hn, rfl⟩
  · exact ⟨_, fun cm rest => validateLoop_cons_no_eqSign cm a rest h0⟩
  · have he : n = "" ∨ v = "" := by
      by_contra hne
      exact ha ⟨n, v, hn, fun e => hne (Or.inl e), fun e => hne (Or.inr e), rfl⟩
    exact ⟨_, fun cm rest => validateLoop_cons_empty_part cm n v rest hn he⟩

/-- C13: `validate` succeeds if and only if the argument list is non-empty and
every argument is `name=version` cut at its first `=` with neither part empty;
nothing else is checked, so ` = ` and `a==` are accepted. -/
theorem validate_ok_iff (o : setHelmVersionOptions) (args : List String) :
    ((validate o args).2 = none ↔
      args ≠ [] ∧
      ∀ a ∈ args, ∃ n v : String, '=' ∉ n.data ∧ n ≠ "" ∧ v ≠ "" ∧ a = n ++ "=" ++ v) ∧
    validate o [" = "] = (⟨[(" ", " ")]⟩, none) ∧
    validate o ["a=="] = (⟨[("a", "=")]⟩, none) := by
  have hex : ∀ (a n v : String), validateLoop [] [a] = ([(n, v)], none) →
      validate o [a] = (⟨[(n, v)]⟩, none) := by
    intro a n v h
    rw [validate_of_ne_nil o [a] (by simp), h]
  refine ⟨⟨fun h => ?_, fun h => ?_⟩, hex _ _ _ (by decide), hex _ _ _ (by decide)⟩
  · have hv : validate o args = ((validate o args).1, none) := Prod.ext rfl h
    obtain ⟨hne, hl⟩ := validate_ok_ne_nil o _ args hv
    exact ⟨hne, validateLoop_ok_all _ _ _ hl⟩
  · rw [validate_of_ne_nil o args h.1]
    exact validateLoop_accepts args h.2 []

/-- C14: when `validate` fails with `e`, `RunE` returns `e` and the file system
it was given, untouched, whatever the store: the document is neither opened,
read nor written. -/
theorem RunE_validate_error {σ μ κ : Type} (kustfile kustfile' : KustFile σ μ κ)
    (o : setHelmVersionOptions) (args : List String) (fSys : σ) (e : GoError)
    (h : (validate o args).2 = some e) :
    RunE kustfile o args fSys = ((validate o args).1, fSys, some e) ∧
    RunE kustfile' o args fSys = RunE kustfile o args fSys := by
  have hv : validate o args = ((validate o args).1, some e) := Prod.ext rfl h
  have hr : ∀ k : KustFile σ μ κ, RunE k o args fSys = ((validate o args).1, fSys, some e) := by
    intro k
    unfold RunE
    rw [hv]
  exact ⟨hr kustfile, by rw [hr kustfile, hr kustfile']⟩

/-- Witness of C14: the test case "empty version" leaves the stored document
as it was. -/
theorem RunE_validate_error_witness :
    RunE memKustFile ⟨[]⟩ ["mychart="] (some ⟨[⟨"mychart", "old-version", ""⟩], ()⟩) =
      ((validate ⟨[]⟩ ["mychart="]).1, some ⟨[⟨"mychart", "old-version", ""⟩], ()⟩,
        some ⟨"invalid argument 'mychart=', chartName and version must not be empty"⟩) :=
  (RunE_validate_error memKustFile memKustFile ⟨[]⟩ ["mychart="]
    (some ⟨[⟨"mychart", "old-version", ""⟩], ()⟩)
    ⟨"invalid argument 'mychart=', chartName and version must not be empty"⟩ (by decide)).1

/-- C15: when every argument before `a` is well formed and `a` is not,
`validate` fails with the error `validate` gives for `a` alone, whatever
follows `a`: the invalid argument with the smallest index is the one
reported. -/
theorem validate_first_invalid (o o' : setHelmVersionOptions) (pre post : List String)
    (a : String)
    (hpre : ∀ b ∈ pre, ∃ n v : String, '=' ∉ n.data ∧ n ≠ "" ∧ v ≠ "" ∧ b = n ++ "=" ++ v)
    (ha : ¬ ∃ n v : String, '=' ∉ n.data ∧ n ≠ "" ∧ v ≠ "" ∧ a = n ++ "=" ++ v) :
    (validate o (pre ++ a :: post)).2 = (validate o' [a]).2 ∧
    (validate o' [a]).2 ≠ none := by
  obtain ⟨e, he⟩ := validateLoop_cons_rejected a ha
  obtain ⟨cm, hcm⟩ := validateLoop_append_accepted pre (a :: post) hpre []
  have h1 : (validate o (pre ++ a :: post)).2 = some e := by
    rw [validate_of_ne_nil o _ (by simp), hcm, he]
  have h2 : (validate o' [a]).2 = some e := by
    rw [validate_of_ne_nil o' _ (by simp), he]
  exact ⟨by rw [h1, h2], by simp [h2]⟩

/-- Witness of C15: `a=1 bad =x` reports `bad`, not `=x`. -/
theorem validate_first_invalid_witness :
    (validate ⟨[]⟩ ["a=1", "bad", "=x"]).2 =
      some ⟨"invalid argument 'bad', must be chartName=version"⟩ ∧
    (validate ⟨[]⟩ (["a=1"] ++ "bad" :: ["=x"])).2 = (validate ⟨[]⟩ ["bad"]).2 :=
  ⟨by decide,
   (validate_first_invalid ⟨[]⟩ ⟨[]⟩ ["a=1"] ["=x"] "bad"
      (fun b hb => ⟨"a", "1", by decide, by decide, by decide, by simpa using hb⟩)
      (by
        rintro ⟨n, v, hn, -, -, e⟩
        have h1 : '=' ∈ (n ++ "=" ++ v).data := by rw [data_eqSign_append]; simp
        rw [← e] at h1
        exact absurd h1 (by decide))).1⟩

/-! ## The file updater: the store, and running the command again -/

/-- C11: on any store, with the calls of `Write` recorded: when opening fails
with `e`, or opening succeeds and reading fails with `e`, `setHelmVersion`
returns exactly `e`, the file system is as before and no call of `Write` is
recorded; when the read succeeds, exactly one call of `Write` is recorded, with
the updated document, and `setHelmVersion` returns the file system and the
error (or success) which that call returns.  Recording changes nothing of what
`setHelmVersion` does on the store itself. -/
theorem setHelmVersion_store {σ μ κ : Type} (kustfile : KustFile σ μ κ)
    (o : setHelmVersionOptions) (fSys : σ) (calls : List (Kustomization κ)) :
    (∀ e, kustfile.NewKustomizationFile fSys = .error e →
      setHelmVersion (traced kustfile) o (fSys, calls) = ((fSys, calls), some e)) ∧
    (∀ mf e, kustfile.NewKustomizationFile fSys = .ok mf →
      kustfile.Read mf fSys = .error e →
      setHelmVersion (traced kustfile) o (fSys, calls) = ((fSys, calls), some e)) ∧
    (∀ mf mf' m, kustfile.NewKustomizationFile fSys = .ok mf →
      kustfile.Read mf fSys = .ok (mf', m) →
      setHelmVersion (traced kustfile) o (fSys, calls) =
        (((kustfile.Write mf'
            { m with HelmCharts := setHelmVersionLoop o.chartMap m.HelmCharts } fSys).1,
          calls ++ [{ m with HelmCharts := setHelmVersionLoop o.chartMap m.HelmCharts }]),
         (kustfile.Write mf'
            { m with HelmCharts := setHelmVersionLoop o.chartMap m.HelmCharts } fSys).2)) ∧
    ((setHelmVersion (traced kustfile) o (fSys, calls)).1.1,
      (setHelmVersion (traced kustfile) o (fSys, calls)).2) = setHelmVersion kustfile o fSys := by
  refine ⟨?_, ?_, ?_, ?_⟩
  · intro e he
    simp [setHelmVersion, traced, he]
  · intro mf e hmf he
    simp [setHelmVersion, traced, hmf, he]
  · intro mf mf' m hmf hm
    simp [setHelmVersion, traced, hmf, hm]
  · cases hmf : kustfile.NewKustomizationFile fSys with
    | error e => simp [setHelmVersion, traced, hmf]
    | ok mf =>
      cases hm : kustfile.Read mf fSys with
      | error e => simp [setHelmVersion, traced, hmf, hm]
      | ok r => simp [setHelmVersion, traced, hmf, hm]

/-- Witness of C11: on the in-memory store, a missing file gives the opening
error and no call of `Write`; a stored document gives one call of `Write`,
with the updated document. -/
theorem setHelmVersion_store_witness :
    setHelmVersion (traced memKustFile) ⟨[("mychart", "1.2.3")]⟩ (none, []) =
      ((none, []), some ⟨"Missing kustomization file"⟩) ∧
    setHelmVersion (traced memKustFile) ⟨[("mychart", "1.2.3")]⟩
        (some ⟨[⟨"mychart", "old-version", "oci://myrepo"⟩], ()⟩, []) =
      ((some ⟨[⟨"mychart", "1.2.3", "oci://myrepo"⟩], ()⟩,
        [⟨[⟨"mychart", "1.2.3", "oci://myrepo"⟩], ()⟩]), none) :=
  ⟨(setHelmVersion_store memKustFile ⟨[("mychart", "1.2.3")]⟩ none []).1
      ⟨"Missing kustomization file"⟩ rfl,
   ((setHelmVersion_store memKustFile ⟨[("mychart", "1.2.3")]⟩
      (some ⟨[⟨"mychart", "old-version", "oci://myrepo"⟩], ()⟩) []).2.2.1 () ()
      ⟨[⟨"mychart", "old-version", "oci://myrepo"⟩], ()⟩ rfl rfl).trans (by decide)⟩

theorem setHelmVersion_memKustFile_some (o : setHelmVersionOptions)
    (m : Kustomization Unit) :
    setHelmVersion memKustFile o (some m) =
      (some { m with HelmCharts := setHelmVersionLoop o.chartMap m.HelmCharts }, none) := rfl

theorem withMappedVersion_idem (chartMap : GoMap) (hc : HelmChart) :
    withMappedVersion chartMap (withMappedVersion chartMap hc) =
      withMappedVersion chartMap hc := by
  cases hg : GoMap.get chartMap hc.Name with
  | none => rw [withMappedVersion_of_get_none _ _ hg, withMappedVersion_of_get_none _ _ hg]
  | some v =>
    rw [withMappedVersion_of_get _ _ _ hg]
    exact withMappedVersion_of_get _ _ _ hg

/-- C16: updating the `helmCharts` list with a map and updating the result
with the same map gives what one update gives; so, on the in-memory store,
running the command twice with the same arguments leaves the document that
running it once leaves. -/
theorem setHelmVersionLoop_idem (chartMap : GoMap) (charts : List HelmChart)
    (o : setHelmVersionOptions) (args : List String) (fSys : Option (Kustomization Unit)) :
    setHelmVersionLoop chartMap (setHelmVersionLoop chartMap charts) =
      setHelmVersionLoop chartMap charts ∧
    (RunE memKustFile (RunE memKustFile o args fSys).1 args
        (RunE memKustFile o args fSys).2.1).2 = (RunE memKustFile o args fSys).2 := by
  have hidem : ∀ (cm : GoMap) (l : List HelmChart),
      setHelmVersionLoop cm (setHelmVersionLoop cm l) = setHelmVersionLoop cm l := by
    intro cm l
    rw [setHelmVersionLoop_eq_map, setHelmVersionLoop_eq_map, List.map_map]
    apply List.map_congr_left
    intro hc _
    exact withMappedVersion_idem cm hc
  refine ⟨hidem chartMap charts, ?_⟩
  cases he : (validate o args).2 with
  | some e =>
    have hv : validate o args = ((validate o args).1, some e) := Prod.ext rfl he
    have h1 : RunE memKustFile o args fSys = ((validate o args).1, fSys, some e) := by
      unfold RunE
      rw [hv]
    have h2 : (validate (validate o args).1 args).2 = some e := by
      cases args with
      | nil => exact he
      | cons a rest =>
        rw [validate_of_ne_nil _ _ (by simp)] at he ⊢
        exact he
    have hv2 : validate (validate o args).1 args =
        ((validate (validate o args).1 args).1, some e) := Prod.ext rfl h2
    rw [h1]
    unfold RunE
    rw [hv2]
  | none =>
    have hv : validate o args = ((validate o args).1, none) := Prod.ext rfl he
    obtain ⟨hne, hl⟩ := validate_ok_ne_nil o _ args hv
    have hv2 : validate (validate o args).1 args = ((validate o args).1, none) := by
      rw [validate_of_ne_nil _ _ hne, hl]
    rw [RunE_of_validate_ok memKustFile o _ args fSys hv,
      RunE_of_validate_ok memKustFile _ _ args _ hv2]
    cases fSys with
    | none => rfl
    | some m =>
      simp only [setHelmVersion_memKustFile_some]
      rw [hidem]

/-! ## Runs in sequence and the order of the arguments -/

/-- The loop of `validate` resumes after a run of arguments it accepted. -/
theorem validateLoop_append_ok (pre rest : List String) (chartMap chartMap' : GoMap)
    (h : validateLoop chartMap pre = (chartMap', none)) :
    validateLoop chartMap (pre ++ rest) = validateLoop chartMap' rest := by
  induction pre generalizing chartMap with
  | nil =>
    simp only [validateLoop, Prod.mk.injEq, and_true] at h
    subst h
    rfl
  | cons a pre ih =>
    obtain ⟨n, w, hn, hn0, hw0, rfl⟩ := validateLoop_cons_ok _ _ _ _ h
    rw [validateLoop_cons_accept _ _ _ _ hn hn0 hw0] at h
    rw [List.cons_append, validateLoop_cons_accept _ _ _ _ hn hn0 hw0]
    exact ih _ h

/-- Started on a map that overrides `base` by `chartMapB`, the loop of
`validate` ends on one that overrides `base` by what it makes of
`chartMapB`. -/
theorem validateLoop_override (base : GoMap) (args : List String)
    (chartMapA chartMapB chartMapA' chartMapB' : GoMap)
    (hA : validateLoop chartMapA args = (chartMapA', none))
    (hB : validateLoop chartMapB args = (chartMapB', none))
    (h : ∀ k, GoMap.get chartMapA k = (GoMap.get chartMapB k).or (GoMap.get base k)) :
    ∀ k, GoMap.get chartMapA' k = (GoMap.get chartMapB' k).or (GoMap.get base k) := by
  induction args generalizing chartMapA chartMapB with
  | nil =>
    simp only [validateLoop, Prod.mk.injEq, and_true] at hA hB
    subst hA
    subst hB
    exact h
  | cons a rest ih =>
    obtain ⟨n, w, hn, hn0, hw0, rfl⟩ := validateLoop_cons_ok _ _ _ _ hA
    rw [validateLoop_cons_accept _ _ _ _ hn hn0 hw0] at hA hB
    refine ih _ _ hA hB (fun k => ?_)
    rw [GoMap.get_set, GoMap.get_set]
    by_cases hnk : n = k
    · simp [hnk]
    · simp [hnk, h k]

theorem withMappedVersion_Repo (chartMap : GoMap) (hc : HelmChart) :
    (withMappedVersion chartMap hc).Repo = hc.Repo := by
  unfold withMappedVersion
  cases GoMap.get chartMap hc.Name <;> rfl

theorem withMappedVersion_congr (chartMap chartMap' : GoMap) (hc : HelmChart)
    (h : GoMap.get chartMap hc.Name = GoMap.get chartMap' hc.Name) :
    withMappedVersion chartMap hc = withMappedVersion chartMap' hc := by
  unfold withMappedVersion
  rw [h]

theorem withMappedVersion_override (chartMap1 chartMap2 chartMap12 : GoMap)
    (h : ∀ k, GoMap.get chartMap12 k = (GoMap.get chartMap2 k).or (GoMap.get chartMap1 k))
    (hc : HelmChart) :
    withMappedVersion chartMap2 (withMappedVersion chartMap1 hc) =
      withMappedVersion chartMap12 hc := by
  have hname := withMappedVersion_Name chartMap1 hc
  cases hg : GoMap.get chartMap2 hc.Name with
  | none =>
    rw [withMappedVersion_of_get_none chartMap2 _ (by rw [hname]; exact hg)]
    exact withMappedVersion_congr _ _ _ (by rw [h, hg, Option.none_or])
  | some v =>
    rw [withMappedVersion_of_get chartMap2 _ v (by rw [hname]; exact hg),
      withMappedVersion_of_get chartMap12 _ v (by rw [h, hg, Option.or_some]),
      hname, withMappedVersion_Repo]

theorem setHelmVersionLoop_override (chartMap1 chartMap2 chartMap12 : GoMap)
    (h : ∀ k, GoMap.get chartMap12 k = (GoMap.get chartMap2 k).or (GoMap.get chartMap1 k))
    (charts : List HelmChart) :
    setHelmVersionLoop chartMap2 (setHelmVersionLoop chartMap1 charts) =
      setHelmVersionLoop chartMap12 charts := by
  rw [setHelmVersionLoop_eq_map, setHelmVersionLoop_eq_map, setHelmVersionLoop_eq_map,
    List.map_map]
  apply List.map_congr_left
  intro hc _
  exact withMappedVersion_override _ _ _ h hc

/-- C17: when `validate` accepts `a1` and accepts `a2`, it accepts `a1 ++ a2`
with a map that is the map of `a2` where that one has a binding and the map of
`a1` elsewhere; updating a `helmCharts` list with the map of `a1` and then
with the map of `a2` gives what one update with the map of `a1 ++ a2` gives;
so, on the in-memory store, the run with `a1` followed by the run with `a2`
leaves what the single run with `a1 ++ a2` leaves. -/
theorem setHelmVersionLoop_sequential (o o' o1 o2 : setHelmVersionOptions)
    (a1 a2 : List String)
    (h1 : validate o a1 = (o1, none)) (h2 : validate o' a2 = (o2, none)) :
    ∃ o12, validate o (a1 ++ a2) = (o12, none) ∧
      (∀ k, GoMap.get o12.chartMap k =
        (GoMap.get o2.chartMap k).or (GoMap.get o1.chartMap k)) ∧
      (∀ charts : List HelmChart,
        setHelmVersionLoop o2.chartMap (setHelmVersionLoop o1.chartMap charts) =
          setHelmVersionLoop o12.chartMap charts) ∧
      ∀ fSys : Option (Kustomization Unit),
        (RunE memKustFile o' a2 (RunE memKustFile o a1 fSys).2.1).2 =
          (RunE memKustFile o (a1 ++ a2) fSys).2 := by
  obtain ⟨hne1, hl1⟩ := validate_ok_ne_nil o o1 a1 h1
  obtain ⟨_, hl2⟩ := validate_ok_ne_nil o' o2 a2 h2
  have hacc : (validateLoop o1.chartMap a2).2 = none :=
    validateLoop_accepts a2 (validateLoop_ok_all _ _ _ hl2) _
  have hA : validateLoop o1.chartMap a2 = ((validateLoop o1.chartMap a2).1, none) :=
    Prod.ext rfl hacc
  have hne : a1 ++ a2 ≠ [] := by simp [hne1]
  have hv : validate o (a1 ++ a2) = (⟨(validateLoop o1.chartMap a2).1⟩, none) := by
    rw [validate_of_ne_nil o _ hne, validateLoop_append_ok a1 a2 [] _ hl1, hacc]
  have hget := validateLoop_override o1.chartMap a2 o1.chartMap [] _ _ hA hl2
    (fun k => by simp [GoMap.get])
  have hloop := setHelmVersionLoop_override o1.chartMap o2.chartMap
    (validateLoop o1.chartMap a2).1 hget
  refine ⟨_, hv, hget, hloop, fun fSys => ?_⟩
  rw [RunE_of_validate_ok memKustFile o o1 a1 fSys h1,
    RunE_of_validate_ok memKustFile o' o2 a2 _ h2,
    RunE_of_validate_ok memKustFile o _ (a1 ++ a2) fSys hv]
  cases fSys with
  | none => rfl
  | some m =>
    simp only [setHelmVersion_memKustFile_some]
    rw [hloop]

/-- Witness of C17: `a=1 b=2` followed by `b=3 c=4` is `a=1 b=2 b=3 c=4`. -/
theorem setHelmVersionLoop_sequential_witness :
    ∃ o12, validate ⟨[]⟩ (["a=1", "b=2"] ++ ["b=3", "c=4"]) = (o12, none) ∧
      (∀ k, GoMap.get o12.chartMap k =
        (GoMap.get [("b", "3"), ("c", "4")] k).or (GoMap.get [("a", "1"), ("b", "2")] k)) ∧
      (∀ charts : List HelmChart,
        setHelmVersionLoop [("b", "3"), ("c", "4")]
            (setHelmVersionLoop [("a", "1"), ("b", "2")] charts) =
          setHelmVersionLoop o12.chartMap charts) ∧
      ∀ fSys : Option (Kustomization Unit),
        (RunE memKustFile ⟨[]⟩ ["b=3", "c=4"]
            (RunE memKustFile ⟨[]⟩ ["a=1", "b=2"] fSys).2.1).2 =
          (RunE memKustFile ⟨[]⟩ (["a=1", "b=2"] ++ ["b=3", "c=4"]) fSys).2 :=
  setHelmVersionLoop_sequential ⟨[]⟩ ⟨[]⟩ ⟨[("a", "1"), ("b", "2")]⟩ ⟨[("b", "3"), ("c", "4")]⟩
    ["a=1", "b=2"] ["b=3", "c=4"] (by decide) (by decide)

/-- With pairwise distinct names, the map `validate` builds binds `k` to `v`
exactly when `k=v` is one of the arguments. -/
theorem validateLoop_get_of_distinct (args : List String) (chartMap : GoMap)
    (h : validateLoop [] args = (chartMap, none))
    (hd : args.Pairwise (fun a b => (SplitN a '=' 2).head? ≠ (SplitN b '=' 2).head?))
    (k v : String) :
    GoMap.get chartMap k = some v ↔ '=' ∉ k.data ∧ (k ++ "=" ++ v) ∈ args := by
  rw [validateLoop_get args [] chartMap h k v]
  constructor
  · rintro (⟨pre, post, e, hk, -⟩ | ⟨hget, -⟩)
    · exact ⟨hk, by rw [e]; simp⟩
    · simp [GoMap.get] at hget
  · rintro ⟨hk, hmem⟩
    obtain ⟨pre, post, e⟩ := List.append_of_mem hmem
    refine Or.inl ⟨pre, post, e, hk, fun b hb v' hbe => ?_⟩
    rw [e] at hd
    have hR := (List.pairwise_cons.1 (List.pairwise_append.1 hd).2.1).1 b hb
    rw [hbe, SplitN_two_of_eqSign k v hk, SplitN_two_of_eqSign k v' hk] at hR
    exact hR rfl

theorem setHelmVersionLoop_congr (chartMap chartMap' : GoMap)
    (h : ∀ k, GoMap.get chartMap k = GoMap.get chartMap' k) (charts : List HelmChart) :
    setHelmVersionLoop chartMap charts = setHelmVersionLoop chartMap' charts := by
  rw [setHelmVersionLoop_eq_map, setHelmVersionLoop_eq_map]
  apply List.map_congr_left
  intro hc _
  exact withMappedVersion_congr _ _ _ (h hc.Name)

/-- C18: when `validate` accepts a list whose name parts (the first piece
`SplitN` yields) are pairwise distinct, it accepts every permutation of the
list with a map that has the same bindings, every `helmCharts` list is updated
to the same list, and the command leaves the same file system and returns the
same result on every store. -/
theorem validate_perm {σ μ κ : Type} (kustfile : KustFile σ μ κ) (fSys : σ)
    (o o' o1 : setHelmVersionOptions) (args args' : List String)
    (h : validate o args = (o1, none))
    (hd : args.Pairwise (fun a b => (SplitN a '=' 2).head? ≠ (SplitN b '=' 2).head?))
    (hp : args'.Perm args) :
    ∃ o2, validate o' args' = (o2, none) ∧
      (∀ k, GoMap.get o2.chartMap k = GoMap.get o1.chartMap k) ∧
      (∀ charts : List HelmChart,
        setHelmVersionLoop o2.chartMap charts = setHelmVersionLoop o1.chartMap charts) ∧
      (RunE kustfile o' args' fSys).2 = (RunE kustfile o args fSys).2 := by
  obtain ⟨hne, hl⟩ := validate_ok_ne_nil o o1 args h
  have hall := validateLoop_ok_all _ _ _ hl
  have hall' : ∀ b ∈ args', ∃ n v : String, '=' ∉ n.data ∧ n ≠ "" ∧ v ≠ "" ∧
      b = n ++ "=" ++ v := fun b hb => hall b (hp.mem_iff.1 hb)
  have hne' : args' ≠ [] := by
    intro e
    rw [e] at hp
    exact hne (List.nil_perm.1 hp)
  have hacc : (validateLoop [] args').2 = none := validateLoop_accepts args' hall' []
  have hl' : validateLoop [] args' = ((validateLoop [] args').1, none) := Prod.ext rfl hacc
  have hv : validate o' args' = (⟨(validateLoop [] args').1⟩, none) := by
    rw [validate_of_ne_nil o' _ hne', hacc]
  have hd' : args'.Pairwise (fun a b => (SplitN a '=' 2).head? ≠ (SplitN b '=' 2).head?) :=
    (List.Perm.pairwise_iff (fun hxy => Ne.symm hxy) hp).2 hd
  have hget : ∀ k, GoMap.get (validateLoop [] args').1 k = GoMap.get o1.chartMap k := by
    intro k
    apply Option.ext
    intro v
    rw [Option.mem_def, Option.mem_def, validateLoop_get_of_distinct args' _ hl' hd' k v,
      validateLoop_get_of_distinct args _ hl hd k v, hp.mem_iff]
  have hloop := setHelmVersionLoop_congr _ _ hget
  refine ⟨_, hv, hget, hloop, ?_⟩
  rw [RunE_of_validate_ok kustfile o' _ args' fSys hv,
    RunE_of_validate_ok kustfile o o1 args fSys h]
  simp only [setHelmVersion, hloop]

/-- Witness of C18: `chartB=3.0.0 chartA=2.0.0` against `chartA=2.0.0
chartB=3.0.0`. -/
theorem validate_perm_witness :
    ∃ o2, validate ⟨[]⟩ ["chartB=3.0.0", "chartA=2.0.0"] = (o2, none) ∧
      (∀ k, GoMap.get o2.chartMap k =
        GoMap.get [("chartA", "2.0.0"), ("chartB", "3.0.0")] k) ∧
      (∀ charts : List HelmChart,
        setHelmVersionLoop o2.chartMap charts =
          setHelmVersionLoop [("chartA", "2.0.0"), ("chartB", "3.0.0")] charts) ∧
      (RunE memKustFile ⟨[]⟩ ["chartB=3.0.0", "chartA=2.0.0"]
          (some ⟨[⟨"chartA", "oldA", ""⟩, ⟨"chartB", "oldB", ""⟩], ()⟩)).2 =
        (RunE memKustFile ⟨[]⟩ ["chartA=2.0.0", "chartB=3.0.0"]
          (some ⟨[⟨"chartA", "oldA", ""⟩, ⟨"chartB", "oldB", ""⟩], ()⟩)).2 :=
  validate_perm memKustFile (some ⟨[⟨"chartA", "oldA", ""⟩, ⟨"chartB", "oldB", ""⟩], ()⟩)
    ⟨[]⟩ ⟨[]⟩ ⟨[("chartA", "2.0.0"), ("chartB", "3.0.0")]⟩
    ["chartA=2.0.0", "chartB=3.0.0"] ["chartB=3.0.0", "chartA=2.0.0"]
    (by decide) (by decide) (List.Perm.swap _ _ _)

/-! ## The persisted text -/

/-- The expectation of the test case "valid single argument and one chart" can
be met: it is met by a store that writes the expected text. -/
theorem testCasePasses_possible :
    ∃ kustfile : KustFile String Unit Unit,
      testCasePasses kustfile ["mychart=1.2.3"] infileHelmCharts fileOutput = true :=
  ⟨⟨fun _ => .ok (), fun mf _ => .ok (mf, ⟨[], ()⟩),
    fun _ _ _ => (Join fileOutput "\n", none)⟩, by decide⟩

end SetHelmVersion
